import Mathlib

/-!
Verification of the font-group-system repository's specification against a
shallow embedding of its JavaScript source.

The embedding models, faithfully to the source files:
  - the server-side font validator and filename sanitizer
    (class FontValidator and FontService.saveFont),
  - the group services and validation (GroupService, ValidationService,
    the client form validation in FontGroupCreator),
  - the client characteristic resolver (parseFontWithPackage,
    createMinimalFallback, detectMonospace, detectSerif),
  - the identity matcher (findFontData in the FontList variant and
    findFontCharacteristics in client/src/components/FontList.jsx),
  - the face activation controller (loadFontWithPackages, the auto-load
    effect of PackageBasedPreview, FontLoadingCache, handleFontDelete).

JavaScript strings are embedded as Lean `String` / `List Char`; JS regular
expressions used by the source are embedded as explicit substring scans.
-/

set_option maxRecDepth 4000

namespace FontGroupSystem

/-! ### Basic JS string operations over lists of characters -/

/-- Character test used to embed lower-case ASCII letter ranges. -/
def isLowerAlpha (c : Char) : Bool := 'a' ≤ c && c ≤ 'z'

/-- Embeds JS `toLowerCase` (ASCII inputs) on a list of characters. -/
def lowerL (l : List Char) : List Char := l.map Char.toLower

/-- Prefix test on character lists (helper for substring scans). -/
def isPrefixOfL : List Char → List Char → Bool
  | [], _ => true
  | _ :: _, [] => false
  | p :: ps, c :: cs => p == c && isPrefixOfL ps cs

/-- Substring test on character lists: does `s` contain `pat`?
Embeds JS `String.prototype.includes` (true for the empty pattern). -/
def containsL (s pat : List Char) : Bool :=
  match s with
  | [] => isPrefixOfL pat []
  | c :: rest => isPrefixOfL pat (c :: rest) || containsL rest pat

/-- JS `a.includes(b)` on strings. -/
def strContains (s pat : String) : Bool := containsL s.data pat.data

/-- JS `String.prototype.toLowerCase` on strings (ASCII inputs). -/
def jsToLower (s : String) : String := ⟨lowerL s.data⟩

/-- JS whitespace class used by `String.prototype.trim`. -/
def isJsSpace (c : Char) : Bool := c = ' ' || c = '\t' || c = '\n' || c = '\r'

/-- JS `trim` on character lists. -/
def trimL (l : List Char) : List Char :=
  ((l.dropWhile isJsSpace).reverse.dropWhile isJsSpace).reverse

/-- JS `String.prototype.trim`. -/
def jsTrim (s : String) : String := ⟨trimL s.data⟩

/-- JS `undefined`-to-empty coercion: optional-chained name-table reads
(`parsedFont.names.fontFamily?.en || ...`) produce `undefined`, treated as
the empty string by the record constructions below. -/
def jsStr (o : Option String) : String := o.getD ""

/-- JS `a || b` on strings: the empty string is falsy. -/
def jsOrS (a b : String) : String := if a = "" then b else a

/-! ### Filename sanitizer (server, class FontValidator)

Source: `FontValidator.sanitizeFilename` —
`filename.replace(/[^a-zA-Z0-9\-_.]/g, '').replace(/\.+/g, '.')`, then if the
lower-cased result does not end in `.ttf`, `sanitized.replace(/\.[^.]*$/, '') + '.ttf'`.
-/

/-- The character class `[a-zA-Z0-9\-_.]` kept by `sanitizeFilename`. -/
def allowedChar (c : Char) : Bool :=
  ('a' ≤ c && c ≤ 'z') || ('A' ≤ c && c ≤ 'Z') || ('0' ≤ c && c ≤ '9') ||
  c == '-' || c == '_' || c == '.'

/-- Embeds `replace(/\.+/g, '.')`: collapses each run of dots to one dot. -/
def collapseDots : List Char → List Char
  | [] => []
  | [c] => [c]
  | c1 :: c2 :: rest =>
    if c1 == '.' && c2 == '.' then collapseDots (c2 :: rest)
    else c1 :: collapseDots (c2 :: rest)

/-- Embeds `replace(/\.[^.]*$/, '')`: removes the last dot and everything
after it; identity when the list has no dot. -/
def stripLastDotSeg : List Char → List Char
  | [] => []
  | c :: rest =>
    if '.' ∈ rest then c :: stripLastDotSeg rest
    else if c = '.' then []
    else c :: rest

/-- Embeds `sanitized.toLowerCase().endsWith('.ttf')`. -/
def endsWithTtf (l : List Char) : Bool :=
  (lowerL l).reverse.take 4 == ['f', 't', 't', '.']

/-- `FontValidator.sanitizeFilename` on character lists. -/
def sanitizeL (l : List Char) : List Char :=
  if endsWithTtf (collapseDots (l.filter allowedChar)) then
    collapseDots (l.filter allowedChar)
  else
    stripLastDotSeg (collapseDots (l.filter allowedChar)) ++ ['.', 't', 't', 'f']

/-- `FontValidator.sanitizeFilename` (server). -/
def sanitizeFilename (s : String) : String := ⟨sanitizeL s.data⟩

/-- Invariant used to reason about `sanitizeFilename`: no two adjacent
dots (the post-condition of `collapseDots`). -/
def noAdjDots : List Char → Bool
  | [] => true
  | [_] => true
  | c1 :: c2 :: rest => !(c1 == '.' && c2 == '.') && noAdjDots (c2 :: rest)

/-- Invariant used to reason about `sanitizeFilename`: does the list end in
a dot? -/
def lastIsDot (l : List Char) : Bool := l.getLast? == some '.'

/-! ### Keyword regexes of the characteristic resolver (client App.jsx)

The JS source tests lower-cased name text against the regexes
`/mono|code|courier|console|terminal|source.?code|fira.?code|jetbrains/`
(binary path, `detectMonospace`),
`/serif|times|georgia|garamond|baskerville|playfair|crimson|merriweather|caslon|minion/`
(binary path, `detectSerif`), and in `createMinimalFallback`
`/mono|code|courier|console|terminal|source.?code|fira.?code/` and
`/serif|times|georgia|garamond|baskerville|playfair|crimson|merriweather/`.
An alternative `X.?Y` matches `X` and `Y` separated by zero or one character,
where the optional character is not a newline (JS `.`). -/

/-- Does `pre` followed by at most one non-newline character followed by
`post` occur at the start of `l`? (Embeds the regex `pre.?post` anchored at
the current scan position.) -/
def gapPrefixL (pre post l : List Char) : Bool :=
  isPrefixOfL (pre ++ post) l ||
  (isPrefixOfL pre l &&
    match l.drop pre.length with
    | [] => false
    | m :: rest2 => m != '\n' && isPrefixOfL post rest2)

/-- Does the regex `pre.?post` match anywhere in `l`? -/
def gapContainsL (pre post : List Char) : List Char → Bool
  | [] => gapPrefixL pre post []
  | c :: rest => gapPrefixL pre post (c :: rest) || gapContainsL pre post rest

/-- Binary-path monospace keyword regex of `detectMonospace`:
`/mono|code|courier|console|terminal|source.?code|fira.?code|jetbrains/`. -/
def monoKeywordTest (s : String) : Bool :=
  strContains s "mono" || strContains s "code" || strContains s "courier" ||
  strContains s "console" || strContains s "terminal" ||
  gapContainsL "source".data "code".data s.data ||
  gapContainsL "fira".data "code".data s.data ||
  strContains s "jetbrains"

/-- Heuristic-path monospace keyword regex of `createMinimalFallback`:
`/mono|code|courier|console|terminal|source.?code|fira.?code/`. -/
def monoKeywordTestHeuristic (s : String) : Bool :=
  strContains s "mono" || strContains s "code" || strContains s "courier" ||
  strContains s "console" || strContains s "terminal" ||
  gapContainsL "source".data "code".data s.data ||
  gapContainsL "fira".data "code".data s.data

/-- Binary-path serif keyword regex of `detectSerif`. -/
def serifKeywordTest (s : String) : Bool :=
  strContains s "serif" || strContains s "times" || strContains s "georgia" ||
  strContains s "garamond" || strContains s "baskerville" ||
  strContains s "playfair" || strContains s "crimson" ||
  strContains s "merriweather" || strContains s "caslon" ||
  strContains s "minion"

/-- Heuristic-path serif keyword regex of `createMinimalFallback`. -/
def serifKeywordTestHeuristic (s : String) : Bool :=
  strContains s "serif" || strContains s "times" || strContains s "georgia" ||
  strContains s "garamond" || strContains s "baskerville" ||
  strContains s "playfair" || strContains s "crimson" ||
  strContains s "merriweather"

/-! ### Characteristic resolver (client App.jsx) -/

/-- A stored font record as produced by the server
(`{ id, name, filename, path }`; `id = name = filename` minus `.ttf`).
Only the fields read by the resolver are carried. -/
structure FontRec where
  name : String
  filename : String
deriving DecidableEq

/-- The `metrics` object of the resolver output. -/
structure FontMetrics where
  unitsPerEm : Option Nat
  ascender : Option Int
  descender : Option Int
  lineGap : Option Int
deriving DecidableEq

/-- The FontCharacteristics object built by `parseFontWithPackage` /
`createMinimalFallback`. -/
structure FontData where
  familyName : String
  weight : Nat
  style : String
  isMonospace : Bool
  isSerif : Bool
  metrics : FontMetrics
deriving DecidableEq

/-- The name-table fields read from an `opentype.js` parse result. `none`
embeds a missing/optional-chained-to-`undefined` field. -/
structure ParsedNames where
  fontFamily : Option String
  fullName : Option String
  fontSubfamily : Option String
  postScriptName : Option String
deriving DecidableEq

/-- The parts of an `opentype.js` parse result read by the resolver.
`probeWidths` are the `advanceWidth`s of `charToGlyph` for the probe set
`['i', 'm', 'W', '1']` (0 when the glyph is missing, as in the source). -/
structure ParsedFont where
  names : ParsedNames
  usWeightClass : Option Nat
  probeWidths : List Nat
  unitsPerEm : Option Nat
  ascender : Option Int
  descender : Option Int
  lineGap : Option Int
deriving DecidableEq

/-- `detectMonospace(parsedFont)`: keyword regex over the lower-cased
family and full names, else an advance-width consistency probe (at least 3
positive widths, all within 10 font units of the first). -/
def detectMonospace (p : ParsedFont) : Bool :=
  let familyName := jsToLower (jsStr p.names.fontFamily)
  let fullName := jsToLower (jsStr p.names.fullName)
  let allNames := familyName ++ " " ++ fullName
  if monoKeywordTest allNames then true
  else
    let widths := p.probeWidths.filter (fun w => 0 < w)
    if 3 ≤ widths.length then
      match widths with
      | [] => false
      | w0 :: _ => widths.all (fun w => ((w : Int) - (w0 : Int)).natAbs < 10)
    else false

/-- `detectSerif(parsedFont)`: serif keyword regex over the lower-cased
family, full and postscript names. -/
def detectSerif (p : ParsedFont) : Bool :=
  serifKeywordTest
    (jsToLower (jsStr p.names.fontFamily) ++ " " ++
     jsToLower (jsStr p.names.fullName) ++ " " ++
     jsToLower (jsStr p.names.postScriptName))

/-- Word alternatives of `replace(/[-_](regular|normal|book)/gi, '')`. -/
def suffixWords1 : List (List Char) := ["regular".data, "normal".data, "book".data]

/-- Word alternatives of
`replace(/[-_](thin|light|medium|semibold|bold|extrabold|black)/gi, '')`,
in source order (JS alternation is ordered). -/
def suffixWords2 : List (List Char) :=
  ["thin".data, "light".data, "medium".data, "semibold".data, "bold".data,
   "extrabold".data, "black".data]

/-- Word alternatives of `replace(/[-_](italic|oblique)/gi, '')`. -/
def suffixWords3 : List (List Char) := ["italic".data, "oblique".data]

/-- First word of `words` matching case-insensitively at the start of `l`. -/
def firstWordMatch (words : List (List Char)) (l : List Char) : Option (List Char) :=
  words.find? (fun w => lowerL (l.take w.length) == w)

/-- Fuelled scan for `stripSepWords`; the fuel only bounds the recursion
depth (one unit per consumed character suffices) and never runs out when it
starts at the list length. -/
def stripSepWordsAux (words : List (List Char)) : Nat → List Char → List Char
  | 0, l => l
  | _ + 1, [] => []
  | fuel + 1, c :: rest =>
    if c = '-' || c = '_' then
      match firstWordMatch words rest with
      | some w => stripSepWordsAux words fuel (rest.drop w.length)
      | none => c :: stripSepWordsAux words fuel rest
    else c :: stripSepWordsAux words fuel rest

/-- Embeds a global case-insensitive `replace(/[-_](w1|...|wn)/gi, '')`:
scan left to right; at a separator, if one of the words follows, drop the
separator and the word and continue after the match. -/
def stripSepWords (words : List (List Char)) (l : List Char) : List Char :=
  stripSepWordsAux words l.length l

/-- Embeds `replace(/\.(ttf|otf)$/gi, '')`. -/
def stripExtTtfOtf (l : List Char) : List Char :=
  if (lowerL l).reverse.take 4 == ['f', 't', 't', '.'] ||
     (lowerL l).reverse.take 4 == ['f', 't', 'o', '.'] then
    l.take (l.length - 4)
  else l

/-- Embeds `replace(/[-_]/g, ' ')`. -/
def sepToSpace (l : List Char) : List Char :=
  l.map (fun c => if c = '-' || c = '_' then ' ' else c)

/-- The family-name cleanup chain of `createMinimalFallback`:
strip `[-_](regular|normal|book)`, `[-_](weight words)`, `[-_](italic|oblique)`,
a trailing `.ttf`/`.otf`, turn separators into spaces, trim. -/
def cleanFamilyName (name : String) : String :=
  ⟨trimL (sepToSpace (stripExtTtfOtf
     (stripSepWords suffixWords3
       (stripSepWords suffixWords2
         (stripSepWords suffixWords1 name.data)))))⟩

/-- `createMinimalFallback(font)`: heuristic characteristics from the
record's display name and filename only. -/
def createMinimalFallback (f : FontRec) : FontData :=
  let name := jsToLower f.name
  let filename := jsToLower f.filename
  let combined := name ++ " " ++ filename
  { familyName := cleanFamilyName f.name
    weight :=
      if strContains combined "bold" then 700
      else if strContains combined "light" then 300
      else 400
    style := if strContains combined "italic" then "italic" else "normal"
    isMonospace := monoKeywordTestHeuristic combined
    isSerif := serifKeywordTestHeuristic combined
    metrics := ⟨none, none, none, none⟩ }

/-- The successful branch of `parseFontWithPackage`: characteristics
extracted from an `opentype.js` parse result, with JS `||` falling back
through empty name fields to the record name. -/
def parseFontWithPackage (p : ParsedFont) (f : FontRec) : FontData :=
  { familyName := jsOrS (jsStr p.names.fontFamily) (jsOrS (jsStr p.names.fullName) f.name)
    weight := p.usWeightClass.getD 400
    style :=
      if strContains (jsToLower (jsStr p.names.fontSubfamily)) "italic" then "italic"
      else "normal"
    isMonospace := detectMonospace p
    isSerif := detectSerif p
    metrics := ⟨p.unitsPerEm, p.ascender, p.descender, p.lineGap⟩ }

/-- `resolve(record, bytes?)`: `parseFontWithPackage` when parsing succeeds
(`some parsedFont`), and on any fetch/parse failure (`none`) the catch
branch `createMinimalFallback(font)`. -/
def resolve (pf : Option ParsedFont) (f : FontRec) : FontData :=
  match pf with
  | some p => parseFontWithPackage p f
  | none => createMinimalFallback f

/-- The activation cache key `fontId` built by `loadFontWithPackages`:
`` `${fontFamily}-${fontData.weight}-${fontData.style}` ``. -/
def mkFontId (d : FontData) : String :=
  d.familyName ++ "-" ++ toString d.weight ++ "-" ++ d.style

/-! ### Identity matcher

Two variants exist in the source: `findFontData` inside `PackageBasedPreview`
(FontList variant) and `findFontCharacteristics` inside `DynamicFontPreview`
(client/src/components/FontList.jsx). Both select a metadata key from the
characteristics cache for a candidate record. -/

/-- `x.toLowerCase().replace(/[^a-z]/g, '')`: lower-case then keep letters. -/
def cleanAlpha (s : String) : List Char := (lowerL s.data).filter isLowerAlpha

/-- `key.split('-')[0].toLowerCase()`: the lower-cased first dash-segment. -/
def keyFamilyPart (key : String) : List Char :=
  lowerL (key.data.takeWhile (fun c => c ≠ '-'))

/-- Strategy 1 of `findFontData`: a single predicate combining an exact
normalized family-name comparison with two 8-character partial tests
(`keyFamily.replace(/[^a-z]/g,'') === fontNameClean ||
keyFamily.includes(fontNameClean.substring(0, 8)) ||
fontNameClean.includes(keyFamily.substring(0, 8))`). -/
def findFontDataStrat1 (fontName : String) (key : String) : Bool :=
  let keyFamily := keyFamilyPart key
  let fontNameClean := cleanAlpha fontName
  (keyFamily.filter isLowerAlpha == fontNameClean) ||
  containsL keyFamily (fontNameClean.take 8) ||
  containsL fontNameClean (keyFamily.take 8)

/-- Strategy 2 of `findFontData`: 8-character partial tests between the
normalized key family and the normalized filename. -/
def findFontDataStrat2 (filename : String) (key : String) : Bool :=
  let keyFamily := (keyFamilyPart key).filter isLowerAlpha
  let filenameClean := cleanAlpha filename
  containsL keyFamily (filenameClean.take 8) ||
  containsL filenameClean (keyFamily.take 8)

/-- Key selection of `findFontData` (FontList variant): strategy 1 over the
metadata keys, then strategy 2; `none` means the enhanced fallback is used. -/
def findFontDataKey (fontName filename : String) (metadataKeys : List String) :
    Option String :=
  match metadataKeys.find? (findFontDataStrat1 fontName) with
  | some k => some k
  | none => metadataKeys.find? (findFontDataStrat2 filename)

/-- `font.filename.replace(/\.(ttf|otf|woff|woff2)$/i, '')` in
`findFontCharacteristics`. -/
def stripClientFontExt (filename : String) : String :=
  let low := lowerL filename.data
  if low.reverse.take 6 == "2ffow.".data then ⟨filename.data.take (filename.data.length - 6)⟩
  else if low.reverse.take 5 == "ffow.".data then ⟨filename.data.take (filename.data.length - 5)⟩
  else if low.reverse.take 4 == "ftt.".data then ⟨filename.data.take (filename.data.length - 4)⟩
  else if low.reverse.take 4 == "fto.".data then ⟨filename.data.take (filename.data.length - 4)⟩
  else filename

/-- Strategy 1 of `findFontCharacteristics`: exact normalized comparison of
the key's family segment with the filename stem. -/
def fcStrat1 (filename : String) (key : String) : Bool :=
  ((keyFamilyPart key).filter isLowerAlpha) == cleanAlpha (stripClientFontExt filename)

/-- Strategy 2 of `findFontCharacteristics`: exact normalized comparison of
the key's family segment with the record name. -/
def fcStrat2 (name : String) (key : String) : Bool :=
  ((keyFamilyPart key).filter isLowerAlpha) == cleanAlpha name

/-- Strategy 3 of `findFontCharacteristics`: 8-character partial tests
between the whole normalized key and the normalized record name. -/
def fcStrat3 (name : String) (key : String) : Bool :=
  let keyLower := cleanAlpha key
  let cleanFontName := cleanAlpha name
  containsL keyLower (cleanFontName.take 8) ||
  containsL cleanFontName (keyLower.take 8)

/-- Key selection of `findFontCharacteristics`
(client/src/components/FontList.jsx): filename-exact, then name-exact, then
partial, stopping at the first strategy that finds a key. -/
def findFontCharacteristicsKey (name filename : String) (keys : List String) :
    Option String :=
  match keys.find? (fcStrat1 filename) with
  | some k => some k
  | none =>
    match keys.find? (fcStrat2 name) with
    | some k => some k
    | none => keys.find? (fcStrat3 name)

/-! ### Group validation (server ValidationService, client FontGroupCreator) -/

/-- An entry of a group payload's `fonts` array: `{ name, selectedFont }`. -/
structure GroupFontEntry where
  name : String
  selectedFont : String
deriving DecidableEq

/-- A group create/update payload `{ title, fonts }`; `fonts = none` embeds
a missing (non-array) field. -/
structure GroupPayload where
  title : String
  fonts : Option (List GroupFontEntry)

/-- `ValidationService.validateGroup` (server):
`group.title && group.fonts && Array.isArray(group.fonts) && group.fonts.length >= 2`. -/
def validateGroup (g : GroupPayload) : Bool :=
  (g.title != "") &&
    (match g.fonts with
     | some fs => decide (2 ≤ fs.length)
     | none => false)

/-- Duplicate-selection test of the client form:
`new Set(selectedFonts).size !== selectedFonts.length`. -/
def hasDuplicateSelection (fs : List GroupFontEntry) : Bool :=
  let sel := fs.map (fun r => r.selectedFont)
  decide (sel.eraseDups.length ≠ sel.length)

/-- A row of the FontGroupCreator form (`{ fontName, selectedFont }`;
the numeric row id is UI-only and not read by validation). -/
structure FontRow where
  fontName : String
  selectedFont : String
deriving DecidableEq

/-- The rows counted as valid by `validateForm`:
`rows.filter(row => row.selectedFont && row.fontName.trim())`. -/
def clientValidRows (rows : List FontRow) : List FontRow :=
  rows.filter (fun r => (r.selectedFont != "") && (jsTrim r.fontName != ""))

/-- Duplicate test of `validateForm` over the valid rows. -/
def rowDupSelection (rows : List FontRow) : Bool :=
  let selectedFonts := rows.map (fun r => r.selectedFont)
  decide (selectedFonts.eraseDups.length ≠ selectedFonts.length)

/-- `validateForm` (client FontGroupCreator): throws on empty trimmed title,
fewer than 2 valid rows, or a duplicate font selection; otherwise returns
the valid rows. -/
def validateForm (groupTitle : String) (fontRows : List FontRow) :
    Except String (List FontRow) :=
  if jsTrim groupTitle == "" then Except.error "Group title is required"
  else
    let validRows := clientValidRows fontRows
    if validRows.length < 2 then
      Except.error "You must select at least two fonts to create a group"
    else if rowDupSelection validRows then
      Except.error "Cannot select the same font multiple times"
    else Except.ok validRows

/-! ### Font store and `FontService.saveFont` (server) -/

/-- `buffer.readUInt32BE(0)` on a byte list (bytes are 0..255). -/
def readUInt32BE (buf : List Nat) : Nat :=
  match buf with
  | b0 :: b1 :: b2 :: b3 :: _ =>
    (b0 % 256) * 16777216 + (b1 % 256) * 65536 + (b2 % 256) * 256 + b3 % 256
  | _ => 0

/-- `FontValidator.isValidTTFFile`: at least 100 bytes and a known 4-byte
container signature. -/
def isValidTTFFile (buf : List Nat) : Bool :=
  if buf.length < 100 then false
  else
    let signature := readUInt32BE buf
    (signature == 0x00010000) || (signature == 0x74727565) ||
    (signature == 0x4F54544F) || (signature == 0x74746366)

/-- `FontValidator.validateFileSize`: at most 10 MiB. -/
def validateFileSize (buf : List Nat) : Bool :=
  buf.length ≤ 10 * 1024 * 1024

/-- The uploads directory as a map from stored filename to file bytes. -/
structure FontStore where
  files : List (String × List Nat)
deriving DecidableEq

/-- `fs.existsSync` on the store for a given filename. -/
def hasFile (st : FontStore) (fn : String) : Bool :=
  st.files.any (fun pr => pr.1 == fn)

/-- The record object returned by `saveFont`. -/
structure FontRecordOut where
  id : String
  name : String
  filename : String
  path : String
deriving DecidableEq

/-- JS non-regex `s.replace(pat, rep)`: replaces the first occurrence only. -/
def replaceFirstL (pat rep : List Char) : List Char → List Char
  | [] => if isPrefixOfL pat [] then rep else []
  | c :: rest =>
    if isPrefixOfL pat (c :: rest) then rep ++ (c :: rest).drop pat.length
    else c :: replaceFirstL pat rep rest

/-- JS `s.replace(pat, rep)` with string (non-regex) pattern. -/
def jsReplaceFirst (s pat rep : String) : String :=
  ⟨replaceFirstL pat.data rep.data s.data⟩

/-- `FontService.saveFont(filename, fileBuffer)`: validate signature and
size, sanitize the filename, reject when a file of that name already exists,
otherwise write the file and return the record. The first component is the
store after the call (unchanged on every error path). -/
def saveFont (st : FontStore) (filename : String) (buf : List Nat) :
    FontStore × Except String FontRecordOut :=
  if !(isValidTTFFile buf) then (st, Except.error "Invalid TTF file format")
  else if !(validateFileSize buf) then
    (st, Except.error "Font file is too large (max 10MB)")
  else
    let sanitizedFilename := sanitizeFilename filename
    if hasFile st sanitizedFilename then
      (st, Except.error "Font file already exists")
    else
      ({ files := st.files ++ [(sanitizedFilename, buf)] },
       Except.ok
         { id := jsReplaceFirst sanitizedFilename ".ttf" ""
           name := jsReplaceFirst sanitizedFilename ".ttf" ""
           filename := sanitizedFilename
           path := "/uploads/fonts/" ++ sanitizedFilename })

/-! ### Group store (`GroupService.deleteGroup`) and its DELETE route -/

/-- A stored group, as far as deletion reads it (`id` plus payload). -/
structure StoredGroup where
  id : String
  title : String
deriving DecidableEq

/-- `GroupService.deleteGroup(id)`: rewrite the store as
`groups.filter(group => group.id !== id)` and return `true`; `false` is
returned only when the filesystem write throws, which the pure embedding
does not model. -/
def deleteGroup (groups : List StoredGroup) (gid : String) :
    List StoredGroup × Bool :=
  (groups.filter (fun g => g.id != gid), true)

/-- Response of the `DELETE /api/groups/:id` route. -/
inductive HttpReply where
  | ok (body : String)
  | notFound (body : String)
deriving DecidableEq

/-- The `DELETE /api/groups/:id` route handler: 200 with
"Group deleted successfully" when `deleteGroup` returns `true`, else 404
"Group not found". -/
def deleteGroupRoute (groups : List StoredGroup) (gid : String) :
    List StoredGroup × HttpReply :=
  let res := deleteGroup groups gid
  (res.1,
   if res.2 then HttpReply.ok "Group deleted successfully"
   else HttpReply.notFound "Group not found")

/-! ### Face activation (`loadFontWithPackages`, App.jsx variant)

`loadFontWithPackages` resolves characteristics, computes the FaceKey
(`fontId`), then (step 2) consults only `document.fonts.check(...)` for a
face with that family/weight/style, and (step 3) creates a `FontFace` and
issues `fontFace.load()` when the check fails; `document.fonts.add` runs
after the load completes. The surrounding effect starts one such call per
record and gathers them with `Promise.allSettled`, so calls for different
records interleave at the `await` suspension points.

The machine below runs two activation calls (threads `A` and `B`) whose
records resolve to the same FaceKey `k`. Each thread executes
check (pc 0) - issue load (pc 1) - complete load / `document.fonts.add`
(pc 2) and is then done (pc 3); a thread whose check finds `k` already in
`document.fonts` returns without loading. A schedule lists which thread
takes the next step. -/

/-- The face identity `(familyName, weight, style)` behind `fontId`. -/
structure FaceKey where
  familyName : String
  weight : Nat
  style : String
deriving DecidableEq

/-- Thread identifier for two concurrent `loadFontWithPackages` calls. -/
inductive LoaderTid where
  | A
  | B
deriving DecidableEq

/-- State of `document.fonts` plus the two activation calls: the set of
completed faces, the number of `fontFace.load()` calls issued, and each
thread's program counter. -/
structure LoaderState where
  docFonts : List FaceKey
  loadCalls : Nat
  pcA : Nat
  pcB : Nat
deriving DecidableEq

/-- Initial state: nothing loaded, no calls issued, both threads at their
`document.fonts.check`. -/
def initLoader : LoaderState := ⟨[], 0, 0, 0⟩

/-- One step of thread `A` (pc 0 check, pc 1 issue, pc 2 complete). -/
def loaderStepA (k : FaceKey) (s : LoaderState) : LoaderState :=
  if s.pcA = 0 then
    if k ∈ s.docFonts then { s with pcA := 3 } else { s with pcA := 1 }
  else if s.pcA = 1 then { s with pcA := 2, loadCalls := s.loadCalls + 1 }
  else if s.pcA = 2 then { s with pcA := 3, docFonts := k :: s.docFonts }
  else s

/-- One step of thread `B`. -/
def loaderStepB (k : FaceKey) (s : LoaderState) : LoaderState :=
  if s.pcB = 0 then
    if k ∈ s.docFonts then { s with pcB := 3 } else { s with pcB := 1 }
  else if s.pcB = 1 then { s with pcB := 2, loadCalls := s.loadCalls + 1 }
  else if s.pcB = 2 then { s with pcB := 3, docFonts := k :: s.docFonts }
  else s

/-- One scheduled step. -/
def loaderStep (k : FaceKey) (s : LoaderState) : LoaderTid → LoaderState
  | LoaderTid.A => loaderStepA k s
  | LoaderTid.B => loaderStepB k s

/-- Run both activation calls under an interleaving schedule. -/
def runLoader (k : FaceKey) (sched : List LoaderTid) : LoaderState :=
  sched.foldl (loaderStep k) initLoader

/-! ### FontLoadingCache (client api.js variant)

The class keeps `loadingPromises` (pending loads by key), `loadedFonts` and
`failedFonts`. Its `setLoading` registers a pending promise which on
settlement moves the key to loaded/failed. The load path
(`loadFontWithPackages`) never calls `setLoading`/`isLoading`; the only
caller is `FontService.deleteFont`, which calls `removeFont` with the
filename stem. -/

/-- The three key sets of `FontLoadingCache`. -/
structure FontLoadingCache where
  loadingKeys : List String
  loadedFonts : List String
  failedFonts : List String
deriving DecidableEq

/-- `isLoading(fontKey)`. -/
def cacheIsLoading (c : FontLoadingCache) (fontKey : String) : Bool :=
  c.loadingKeys.contains fontKey

/-- `setLoading(fontKey, promise)`: the key becomes pending. -/
def cacheSetLoading (c : FontLoadingCache) (fontKey : String) : FontLoadingCache :=
  { c with loadingKeys := fontKey :: c.loadingKeys }

/-- Promise resolution registered by `setLoading`: key moves to loaded. -/
def cacheResolveLoad (c : FontLoadingCache) (fontKey : String) : FontLoadingCache :=
  { c with
    loadedFonts := fontKey :: c.loadedFonts
    loadingKeys := c.loadingKeys.filter (fun x => x != fontKey) }

/-- `removeFont(fontKey)` as called by `FontService.deleteFont`. -/
def cacheRemoveFont (c : FontLoadingCache) (fontKey : String) : FontLoadingCache :=
  { c with
    loadingKeys := c.loadingKeys.filter (fun x => x != fontKey)
    loadedFonts := c.loadedFonts.filter (fun x => x != fontKey)
    failedFonts := c.failedFonts.filter (fun x => x != fontKey) }

/-! ### Auto-load effect of `PackageBasedPreview` (FontList variant)

The component keeps `isLoadingFont`, `loadError` state and a
`loadingAttemptRef`. Its effect runs `loadFont` when
`!isLoaded && font && font.path && fontFamily && !isLoadingFont &&
!loadingAttemptRef.current`; the effect re-runs whenever a value in its
dependency array (which contains `isLoadingFont` but not `loadError`)
changes. `loadFont` sets `isLoadingFont`, clears `loadError`, stores the
path in the ref; on failure the catch/finally blocks set `loadError` and
reset `isLoadingFont` and the ref. -/

/-- Component state read and written by the auto-load effect. -/
structure PrevState where
  isLoaded : Bool
  isLoadingFont : Bool
  loadError : Option String
  loadingAttempt : Option String
deriving DecidableEq

/-- The effect guard
`!isLoaded && font && font.path && fontFamily && !isLoadingFont &&
!loadingAttemptRef.current` (string truthiness = non-empty). -/
def effectGuard (path fontFamily : String) (s : PrevState) : Bool :=
  !s.isLoaded && (path != "") && (fontFamily != "") && !s.isLoadingFont &&
  s.loadingAttempt.isNone

/-- Start of `loadFont`: `setIsLoadingFont(true)`, `setLoadError(null)`,
`loadingAttemptRef.current = font.path`. -/
def startLoad (path : String) (s : PrevState) : PrevState :=
  { s with isLoadingFont := true, loadError := none, loadingAttempt := some path }

/-- Failure of the started load (e.g. the 5000 ms timeout rejection): the
catch block records the error and the finally block resets the loading flag
and the ref, both guarded by `loadingAttemptRef.current === font.path`. -/
def failLoad (msg path : String) (s : PrevState) : PrevState :=
  if s.loadingAttempt == some path then
    { s with loadError := some msg, isLoadingFont := false, loadingAttempt := none }
  else s

/-- Two effect cycles of the component with a failing face load: each cycle
runs `loadFont` exactly when the guard holds (counting one load attempt)
and the attempt fails. Returns the number of load attempts issued. The
second cycle models the effect re-run triggered by the `isLoadingFont`
dependency changing back to `false`. -/
def retrySim (path fontFamily : String) : Nat :=
  let s0 : PrevState := ⟨false, false, none, none⟩
  let c1 : Nat := if effectGuard path fontFamily s0 then 1 else 0
  let s1 :=
    if effectGuard path fontFamily s0 then failLoad "Font load timeout" path (startLoad path s0)
    else s0
  let c2 : Nat := if effectGuard path fontFamily s1 then 1 else 0
  c1 + c2

/-! ### Deletion cleanup (`handleFontDelete`, App.jsx variant)

After a record is deleted, the handler removes from `loadedFonts` the ids
with `fontId.includes(fontToRemove.name)` and deletes the metadata keys
with `key.includes(fontToRemove.name)`. -/

/-- `loadedFonts` cleanup:
`prev.filter(fontId => !fontId.includes(fontToRemove.name))`. -/
def cleanupLoadedFonts (nm : String) (loaded : List String) : List String :=
  loaded.filter (fun fid => !(strContains fid nm))

/-- `fontMetadata` key cleanup: keys with `key.includes(fontToRemove.name)`
are deleted. -/
def cleanupFontMetadata (nm : String) (keys : List String) : List String :=
  keys.filter (fun k => !(strContains k nm))

/-! ## Theorems -/

/-! ### C1 — single-flight activation -/

/-- Claim C1, counterexample: two concurrent `loadFontWithPackages` calls
whose records resolve to the same FaceKey can both pass the
`document.fonts.check` duplicate test before either load completes, so two
underlying face-load calls are issued for one FaceKey — the second call is
issued while the first is still pending instead of awaiting it. This
refutes the claimed single-flight property of the load path. -/
theorem C1_counterexample :
    (runLoader ⟨"Roboto", 400, "normal"⟩
      [LoaderTid.A, LoaderTid.A, LoaderTid.B, LoaderTid.B,
       LoaderTid.A, LoaderTid.B]).loadCalls = 2 := by
  decide

/-- Claim C1, amended: the duplicate test of `loadFontWithPackages` prevents
a second load only when the second activation's `document.fonts.check` runs
after the first load has completed and been added to `document.fonts`; under
such a sequential schedule exactly one face-load call is issued for the
shared FaceKey. (The `FontLoadingCache` pending-promise map is never
consulted by the load path, so nothing awaits an in-flight load.) -/
theorem C1_amended (k : FaceKey) :
    (runLoader k
      [LoaderTid.A, LoaderTid.A, LoaderTid.A,
       LoaderTid.B, LoaderTid.B, LoaderTid.B]).loadCalls = 1 := by
  simp [runLoader, initLoader, loaderStep, loaderStepA, loaderStepB,
    List.not_mem_nil, List.mem_singleton]

/-! ### C2 — identity matcher priority order -/

/-- Claim C2, counterexample: in `findFontData` (FontList variant) the
first strategy mixes the exact family-name comparison with the 8-character
partial tests in one pass over the keys, so for the candidate "Roboto" with
cache keys ["RobotoSlab-400-normal", "Roboto-700-normal"] the matcher
returns the partial match "RobotoSlab-400-normal" even though
"Roboto-700-normal" is an exact family-name match — contradicting the claim
that a candidate with an exact family-name match is never resolved via the
partial strategy. -/
theorem C2_counterexample :
    findFontDataKey "Roboto" "Roboto.ttf"
        ["RobotoSlab-400-normal", "Roboto-700-normal"]
      = some "RobotoSlab-400-normal"
    ∧ ((keyFamilyPart "Roboto-700-normal").filter isLowerAlpha
        == cleanAlpha "Roboto") = true
    ∧ ((keyFamilyPart "RobotoSlab-400-normal").filter isLowerAlpha
        == cleanAlpha "Roboto") = false := by
  decide

/-- Claim C2, amended: only `findFontCharacteristics`
(client/src/components/FontList.jsx) applies exact strategies strictly
before the partial one, and its exact order is filename-stem first, then
record name: whenever some cache key matches the filename stem exactly, the
matcher's result is a filename-exact match and the partial strategy is
never consulted. `findFontData` instead folds partial matching into its
first strategy, so there an exact family-name match can lose to a partial
match on an earlier key. -/
theorem C2_amended (name filename : String) (keys : List String)
    (h : keys.any (fcStrat1 filename) = true) :
    ∃ k, findFontCharacteristicsKey name filename keys = some k ∧
      fcStrat1 filename k = true := by
  have h2 : ∃ x, x ∈ keys ∧ fcStrat1 filename x = true := by
    simpa [List.any_eq_true] using h
  have h3 : (keys.find? (fcStrat1 filename)).isSome := by
    rw [List.find?_isSome]
    exact h2
  cases hf : keys.find? (fcStrat1 filename) with
  | none => rw [hf] at h3; simp at h3
  | some k =>
    exact ⟨k, by simp [findFontCharacteristicsKey, hf], List.find?_some hf⟩

/-- Witness for the amended C2 theorem at a concrete input. -/
theorem C2_amended_witness :
    ∃ k, findFontCharacteristicsKey "Roboto" "Roboto.ttf" ["Roboto-400-normal"]
        = some k ∧ fcStrat1 "Roboto.ttf" k = true :=
  C2_amended "Roboto" "Roboto.ttf" ["Roboto-400-normal"] (by decide)

/-! ### C3 — server-side group validation -/

/-- Claim C3, counterexample: `ValidationService.validateGroup` accepts a
payload that selects the same font twice (it checks only truthy title and
`fonts.length >= 2`), so the server does not reject duplicate font
selections — contradicting the claim that duplicates are refused
store-side. -/
theorem C3_counterexample :
    validateGroup ⟨"My Group", some [⟨"Alpha", "font1"⟩, ⟨"Beta", "font1"⟩]⟩ = true
    ∧ hasDuplicateSelection [⟨"Alpha", "font1"⟩, ⟨"Beta", "font1"⟩] = true := by
  decide

/-- Claim C3, amended: server-side validation rejects exactly when the
payload has a missing/empty title or fewer than 2 fonts; the
duplicate-selection constraint is enforced only by the client form
(`validateForm`), which throws "Cannot select the same font multiple times"
on a duplicate selection among its valid rows. -/
theorem C3_amended :
    (∀ g : GroupPayload,
      validateGroup g = true ↔
        (g.title ≠ "" ∧ ∃ fs, g.fonts = some fs ∧ 2 ≤ fs.length))
    ∧ (∀ (t : String) (rows : List FontRow),
        jsTrim t ≠ "" →
        2 ≤ (clientValidRows rows).length →
        rowDupSelection (clientValidRows rows) = true →
        validateForm t rows =
          Except.error "Cannot select the same font multiple times") := by
  constructor
  · rintro ⟨t, f⟩
    cases f with
    | none => simp [validateGroup]
    | some fs => simp [validateGroup]
  · intro t rows h1 h2 h3
    have e1 : (jsTrim t == "") = false := by
      simpa [beq_iff_eq] using h1
    have e2 : ¬ ((clientValidRows rows).length < 2) := by omega
    simp [validateForm, e1, e2, h3]

/-- Witness for the amended C3 theorem at a concrete input. -/
theorem C3_amended_witness :
    validateForm "G" [⟨"a", "f1"⟩, ⟨"b", "f1"⟩] =
      Except.error "Cannot select the same font multiple times" :=
  C3_amended.2 "G" [⟨"a", "f1"⟩, ⟨"b", "f1"⟩] (by decide) (by decide) (by decide)

/-! ### C4 — resolver totality and non-empty family name -/

/-- Claim C4, counterexample: for the stored record with display name
"-Bold" (a legal sanitized filename "-Bold.ttf"), the heuristic fallback's
cleanup chain deletes the whole name, so `resolve` returns an empty
`familyName` — contradicting the claimed invariant that `familyName` is
always a non-empty string. -/
theorem C4_counterexample :
    (resolve none ⟨"-Bold", "-Bold.ttf"⟩).familyName = "" := by
  decide

/-- Helper: the JS `||` fallback chain is non-empty when its last link is. -/
theorem jsOrS_chain_ne (a b c : String) (h : c ≠ "") :
    jsOrS a (jsOrS b c) ≠ "" := by
  by_cases ha : a = "" <;> by_cases hb : b = "" <;> simp [jsOrS, ha, hb, h]

/-- Claim C4, amended: `resolve` is total and deterministic by
construction, and on both paths the returned `familyName` is non-empty
whenever the cleaned display name is non-empty; on the heuristic path it
equals the cleaned display name, which can be empty when the display name
consists only of separator-plus-suffix tokens (e.g. "-Bold"). -/
theorem C4_amended (pf : Option ParsedFont) (f : FontRec)
    (h : cleanFamilyName f.name ≠ "") :
    (resolve pf f).familyName ≠ "" := by
  have hn : f.name ≠ "" := by
    intro he
    apply h
    rw [he]
    decide
  cases pf with
  | none => simpa [resolve, createMinimalFallback] using h
  | some p =>
    simpa [resolve, parseFontWithPackage] using
      jsOrS_chain_ne (jsStr p.names.fontFamily) (jsStr p.names.fullName) f.name hn

/-- Witness for the amended C4 theorem at a concrete input. -/
theorem C4_amended_witness :
    (resolve none ⟨"Roboto", "Roboto.ttf"⟩).familyName ≠ "" :=
  C4_amended none ⟨"Roboto", "Roboto.ttf"⟩ (by decide)

/-! ### C5 — heuristic keyword sets -/

/-- Claim C5, counterexample: the heuristic path's keyword regexes omit
`jetbrains` (monospace) and `caslon`, `minion` (serif), so a record named
"JetBrains" resolves with `isMonospace = false` and one named "Caslon" with
`isSerif = false`, while the binary-path regexes classify the same
lower-cased text as monospace/serif — the two paths do not use the same
keyword sets. -/
theorem C5_counterexample :
    (createMinimalFallback ⟨"JetBrains", "JetBrains.ttf"⟩).isMonospace = false
    ∧ monoKeywordTest "jetbrains jetbrains.ttf" = true
    ∧ (createMinimalFallback ⟨"Caslon", "Caslon.ttf"⟩).isSerif = false
    ∧ serifKeywordTest "caslon caslon.ttf" = true := by
  decide

/-- Claim C5, amended: the heuristic path tests the combined
display-name-plus-filename text against keyword sets that are strict
subsets of the binary path's sets (monospace without `jetbrains`, serif
without `caslon` and `minion`); every heuristic keyword hit is also a
binary-path keyword hit, and `firacode-regular.ttf` still resolves with
`isMonospace = true` without binary parsing. -/
theorem C5_amended :
    (createMinimalFallback
        ⟨"firacode-regular", "firacode-regular.ttf"⟩).isMonospace = true
    ∧ (∀ s : String, monoKeywordTestHeuristic s = true → monoKeywordTest s = true)
    ∧ (∀ s : String, serifKeywordTestHeuristic s = true → serifKeywordTest s = true) := by
  refine ⟨by decide, ?_, ?_⟩
  · intro s h
    simp only [monoKeywordTestHeuristic, Bool.or_eq_true] at h
    simp only [monoKeywordTest, Bool.or_eq_true]
    tauto
  · intro s h
    simp only [serifKeywordTestHeuristic, Bool.or_eq_true] at h
    simp only [serifKeywordTest, Bool.or_eq_true]
    tauto

/-- Witness for the amended C5 theorem at concrete inputs. -/
theorem C5_amended_witness :
    monoKeywordTest "mono" = true ∧ serifKeywordTest "serif" = true :=
  ⟨C5_amended.2.1 "mono" (by decide), C5_amended.2.2 "serif" (by decide)⟩

/-! ### C6 — failed activation state -/

/-- Claim C6, counterexample: after a load failure (e.g. the 5000 ms
timeout) the auto-load effect's guard — which checks `isLoadingFont` and
`loadingAttemptRef` but not `loadError` — is satisfied again, so the
component issues a second load attempt automatically, with no new explicit
activation call: two attempts are issued across two effect cycles. This
refutes the claim that a failure is terminal with no automatic retry. -/
theorem C6_counterexample :
    retrySim "/uploads/fonts/Roboto-Regular.ttf" "Roboto" = 2 := by
  decide

/-- Claim C6, amended: a failed attempt records `loadError` but re-enables
the auto-load guard (the failure path resets `isLoadingFont` and the
attempt ref, and the guard never consults `loadError` or the cache's
failed set), so the failed state is not terminal: the effect retries
automatically on its next run. -/
theorem C6_amended (path fontFamily msg : String) (s : PrevState)
    (h : effectGuard path fontFamily s = true) :
    effectGuard path fontFamily (failLoad msg path (startLoad path s)) = true := by
  simp only [effectGuard, Bool.and_eq_true, bne_iff_ne] at h
  simp [effectGuard, startLoad, failLoad, h.1.1.1.1]
  exact ⟨h.1.1.1.2, h.1.1.2⟩

/-- Witness for the amended C6 theorem at a concrete input. -/
theorem C6_amended_witness :
    effectGuard "/uploads/fonts/a.ttf" "A"
      (failLoad "Font load timeout" "/uploads/fonts/a.ttf"
        (startLoad "/uploads/fonts/a.ttf" ⟨false, false, none, none⟩)) = true :=
  C6_amended "/uploads/fonts/a.ttf" "A" "Font load timeout"
    ⟨false, false, none, none⟩ (by decide)

/-! ### C7 — deletion invalidates the activation entry -/

/-- Claim C7, counterexample: deleting the record "Roboto-Regular" (whose
characteristics resolve to family "Roboto", hence cache key
"Roboto-400-normal") removes nothing from `loadedFonts` or `fontMetadata`,
because the cleanup only drops keys that contain the record's display name
as a substring and "Roboto-400-normal" does not contain "Roboto-Regular".
The activation entry for the FaceKey therefore survives the deletion,
contradicting the claimed immediate invalidation. -/
theorem C7_counterexample :
    mkFontId (resolve none ⟨"Roboto-Regular", "Roboto-Regular.ttf"⟩)
      = "Roboto-400-normal"
    ∧ cleanupLoadedFonts "Roboto-Regular" ["Roboto-400-normal"]
      = ["Roboto-400-normal"]
    ∧ cleanupFontMetadata "Roboto-Regular" ["Roboto-400-normal"]
      = ["Roboto-400-normal"] := by
  decide

/-- Claim C7, amended: deletion invalidates exactly those cached activation
entries whose key contains the deleted record's display name as a
substring; an entry keyed by a resolved family name that does not contain
the display name (the common case for suffixed filenames) is retained. -/
theorem C7_amended (nm fid : String) (loaded : List String) :
    fid ∈ cleanupLoadedFonts nm loaded ↔
      fid ∈ loaded ∧ strContains fid nm = false := by
  simp [cleanupLoadedFonts, List.mem_filter]

/-! ### C9 — duplicate upload rejection -/

/-- Claim C9: when the sanitized name of a valid uploaded font already
exists in the store, `saveFont` rejects the upload with the
duplicate-identity error and the store — including the already-stored
file's contents — is unchanged. -/
theorem C9_saveFont_duplicate (st : FontStore) (fn : String) (buf : List Nat)
    (h1 : isValidTTFFile buf = true) (h2 : validateFileSize buf = true)
    (h3 : hasFile st (sanitizeFilename fn) = true) :
    saveFont st fn buf = (st, Except.error "Font file already exists") := by
  simp [saveFont, h1, h2, h3]

/-- Witness for C9 at a concrete input: uploading different bytes under an
already-stored name is refused and the stored bytes survive. -/
theorem C9_saveFont_duplicate_witness :
    saveFont ⟨[("Roboto.ttf", 9 :: 9 :: 9 :: List.replicate 97 0)]⟩ "Roboto.ttf"
        (0 :: 1 :: 0 :: 0 :: List.replicate 96 0)
      = (⟨[("Roboto.ttf", 9 :: 9 :: 9 :: List.replicate 97 0)]⟩,
         Except.error "Font file already exists") :=
  C9_saveFont_duplicate ⟨[("Roboto.ttf", 9 :: 9 :: 9 :: List.replicate 97 0)]⟩
    "Roboto.ttf" (0 :: 1 :: 0 :: 0 :: List.replicate 96 0)
    (by decide) (by decide) (by decide)

/-! ### C10 — deleteGroup on a missing id -/

/-- Claim C10: `deleteGroup` rewrites the store as a filter and returns
`true` regardless of whether the id was present, so the DELETE route always
answers 200 "Group deleted successfully" on the non-exceptional path — its
404 "Group not found" branch is unreachable for a merely missing id, and
for a missing id the stored groups are unchanged. -/
theorem C10_deleteGroup_total (groups : List StoredGroup) (gid : String) :
    (deleteGroupRoute groups gid).2 = HttpReply.ok "Group deleted successfully"
    ∧ (gid ∉ groups.map StoredGroup.id → (deleteGroupRoute groups gid).1 = groups) := by
  constructor
  · simp [deleteGroupRoute, deleteGroup]
  · intro hnot
    simp only [deleteGroupRoute, deleteGroup]
    rw [List.filter_eq_self]
    intro g hg
    have hne : g.id ≠ gid := fun he => hnot (he ▸ List.mem_map_of_mem StoredGroup.id hg)
    simpa [bne_iff_ne] using hne

/-- Witness for C10 at a concrete input: deleting an id that is not stored
still answers 200 and leaves the groups unchanged. -/
theorem C10_deleteGroup_total_witness :
    (deleteGroupRoute [⟨"1700000000000", "Heading Fonts"⟩] "42").2
      = HttpReply.ok "Group deleted successfully"
    ∧ (deleteGroupRoute [⟨"1700000000000", "Heading Fonts"⟩] "42").1
      = [⟨"1700000000000", "Heading Fonts"⟩] :=
  ⟨(C10_deleteGroup_total [⟨"1700000000000", "Heading Fonts"⟩] "42").1,
   (C10_deleteGroup_total [⟨"1700000000000", "Heading Fonts"⟩] "42").2 (by decide)⟩

/-! ### C8 — idempotence of the filename sanitizer

Strategy: every output of `sanitizeL` contains only allowed characters, has
no adjacent dots, and (lower-cased) ends in `.ttf`; each of the three
stages of `sanitizeL` is the identity on such lists. -/

/-- Every character kept by `collapseDots` comes from its input. -/
theorem mem_collapseDots : ∀ (l : List Char) (c : Char), c ∈ collapseDots l → c ∈ l
  | [], c, h => by simp [collapseDots] at h
  | [a], c, h => by simpa [collapseDots] using h
  | a :: b :: rest, c, h => by
    by_cases hab : (a == '.' && b == '.') = true
    · rw [show collapseDots (a :: b :: rest) = collapseDots (b :: rest) by
        simp [collapseDots, hab]] at h
      exact List.mem_cons_of_mem a (mem_collapseDots (b :: rest) c h)
    · rw [show collapseDots (a :: b :: rest) = a :: collapseDots (b :: rest) by
        simp [collapseDots, hab]] at h
      rcases List.mem_cons.mp h with h1 | h2
      · exact h1 ▸ List.mem_cons_self a (b :: rest)
      · exact List.mem_cons_of_mem a (mem_collapseDots (b :: rest) c h2)

/-- `collapseDots` preserves the head of the list. -/
theorem headq_collapseDots : ∀ l : List Char, (collapseDots l).head? = l.head?
  | [] => rfl
  | [_] => rfl
  | a :: b :: rest => by
    by_cases hab : (a == '.' && b == '.') = true
    · have hd : collapseDots (a :: b :: rest) = collapseDots (b :: rest) := by
        simp [collapseDots, hab]
      have hab2 : a = '.' ∧ b = '.' := by
        simpa [Bool.and_eq_true, beq_iff_eq] using hab
      rw [hd, headq_collapseDots (b :: rest)]
      simp [hab2.1, hab2.2]
    · have hd : collapseDots (a :: b :: rest) = a :: collapseDots (b :: rest) := by
        simp [collapseDots, hab]
      simp [hd]

/-- Unfolding equation for `noAdjDots` on two or more elements. -/
theorem noAdjDots_cons_cons (a b : Char) (rest : List Char) :
    noAdjDots (a :: b :: rest) = (!(a == '.' && b == '.') && noAdjDots (b :: rest)) :=
  rfl

/-- `noAdjDots` passes to the tail. -/
theorem noAdjDots_tail (a : Char) (rest : List Char)
    (h : noAdjDots (a :: rest) = true) : noAdjDots rest = true := by
  cases rest with
  | nil => rfl
  | cons b r =>
    rw [noAdjDots_cons_cons, Bool.and_eq_true] at h
    exact h.2

/-- The output of `collapseDots` has no adjacent dots. -/
theorem noAdjDots_collapseDots : ∀ l : List Char, noAdjDots (collapseDots l) = true
  | [] => rfl
  | [_] => rfl
  | a :: b :: rest => by
    by_cases hab : (a == '.' && b == '.') = true
    · rw [show collapseDots (a :: b :: rest) = collapseDots (b :: rest) by
        simp [collapseDots, hab]]
      exact noAdjDots_collapseDots (b :: rest)
    · rw [show collapseDots (a :: b :: rest) = a :: collapseDots (b :: rest) by
        simp [collapseDots, hab]]
      have ih := noAdjDots_collapseDots (b :: rest)
      cases hc : collapseDots (b :: rest) with
      | nil => rfl
      | cons x xs =>
        have hx : x = b := by
          have h1 := headq_collapseDots (b :: rest)
          rw [hc] at h1
          simpa using h1
        subst hx
        rw [hc] at ih
        rw [noAdjDots_cons_cons, Bool.and_eq_true]
        have habf : (a == '.' && x == '.') = false := by
          revert hab
          cases a == '.' && x == '.' <;> simp
        exact ⟨by simp [habf], ih⟩

/-- `collapseDots` is the identity on lists with no adjacent dots. -/
theorem collapseDots_of_noAdjDots :
    ∀ l : List Char, noAdjDots l = true → collapseDots l = l
  | [], _ => rfl
  | [_], _ => rfl
  | a :: b :: rest, h => by
    rw [noAdjDots_cons_cons, Bool.and_eq_true] at h
    have habf : (a == '.' && b == '.') = false := by
      have := h.1
      revert this
      cases a == '.' && b == '.' <;> simp
    simp [collapseDots, habf, collapseDots_of_noAdjDots (b :: rest) h.2]

/-- Every character kept by `stripLastDotSeg` comes from its input. -/
theorem mem_stripLastDotSeg :
    ∀ (l : List Char) (c : Char), c ∈ stripLastDotSeg l → c ∈ l
  | [], c, h => by simp [stripLastDotSeg] at h
  | a :: rest, c, h => by
    by_cases hd : '.' ∈ rest
    · rw [show stripLastDotSeg (a :: rest) = a :: stripLastDotSeg rest by
        simp [stripLastDotSeg, hd]] at h
      rcases List.mem_cons.mp h with h1 | h2
      · exact h1 ▸ List.mem_cons_self a rest
      · exact List.mem_cons_of_mem a (mem_stripLastDotSeg rest c h2)
    · by_cases ha : a = '.'
      · rw [show stripLastDotSeg (a :: rest) = [] by
          simp [stripLastDotSeg, hd, ha]] at h
        simp at h
      · rw [show stripLastDotSeg (a :: rest) = a :: rest by
          simp [stripLastDotSeg, hd, ha]] at h
        exact h

/-- A non-empty output of `stripLastDotSeg` starts with the input's head. -/
theorem head_of_stripLastDotSeg (l : List Char) (x : Char) (xs : List Char)
    (h : stripLastDotSeg l = x :: xs) : l.head? = some x := by
  cases l with
  | nil => simp [stripLastDotSeg] at h
  | cons a rest =>
    by_cases hd : '.' ∈ rest
    · rw [show stripLastDotSeg (a :: rest) = a :: stripLastDotSeg rest by
        simp [stripLastDotSeg, hd]] at h
      have := (List.cons.injEq a (stripLastDotSeg rest) x xs).mp h
      simp [this.1]
    · by_cases ha : a = '.'
      · rw [show stripLastDotSeg (a :: rest) = [] by
          simp [stripLastDotSeg, hd, ha]] at h
        exact absurd h (by simp)
      · rw [show stripLastDotSeg (a :: rest) = a :: rest by
          simp [stripLastDotSeg, hd, ha]] at h
        have := (List.cons.injEq a rest x xs).mp h
        simp [this.1]

/-- An empty output of `stripLastDotSeg` means the input was empty or a
single leading dot followed by a dot-free tail. -/
theorem stripLastDotSeg_eq_nil (l : List Char) (h : stripLastDotSeg l = []) :
    l = [] ∨ ∃ t, l = '.' :: t ∧ '.' ∉ t := by
  cases l with
  | nil => exact Or.inl rfl
  | cons a rest =>
    by_cases hd : '.' ∈ rest
    · rw [show stripLastDotSeg (a :: rest) = a :: stripLastDotSeg rest by
        simp [stripLastDotSeg, hd]] at h
      exact absurd h (by simp)
    · by_cases ha : a = '.'
      · exact Or.inr ⟨rest, by rw [ha], hd⟩
      · rw [show stripLastDotSeg (a :: rest) = a :: rest by
          simp [stripLastDotSeg, hd, ha]] at h
        exact absurd h (by simp)

/-- `stripLastDotSeg` preserves the no-adjacent-dots invariant. -/
theorem noAdjDots_stripLastDotSeg :
    ∀ l : List Char, noAdjDots l = true → noAdjDots (stripLastDotSeg l) = true
  | [], _ => rfl
  | a :: rest, h => by
    have htail : noAdjDots rest = true := noAdjDots_tail a rest h
    by_cases hd : '.' ∈ rest
    · have ih := noAdjDots_stripLastDotSeg rest htail
      rw [show stripLastDotSeg (a :: rest) = a :: stripLastDotSeg rest by
        simp [stripLastDotSeg, hd]]
      cases hs : stripLastDotSeg rest with
      | nil => rfl
      | cons x xs =>
        have hx : rest.head? = some x := head_of_stripLastDotSeg rest x xs hs
        rw [hs] at ih
        rw [noAdjDots_cons_cons, Bool.and_eq_true]
        refine ⟨?_, ih⟩
        cases rest with
        | nil => simp at hx
        | cons r0 rtail =>
          have hr0 : r0 = x := by simpa using hx
          subst hr0
          rw [noAdjDots_cons_cons, Bool.and_eq_true] at h
          exact h.1
    · by_cases ha : a = '.'
      · rw [show stripLastDotSeg (a :: rest) = [] by
          simp [stripLastDotSeg, hd, ha]]
        rfl
      · rw [show stripLastDotSeg (a :: rest) = a :: rest by
          simp [stripLastDotSeg, hd, ha]]
        exact h

/-- A value produced by `getLast?` is a member of the list. -/
theorem mem_of_getLastq {l : List Char} {x : Char} (h : l.getLast? = some x) :
    x ∈ l := by
  rcases List.mem_getLast?_eq_getLast (Option.mem_def.mpr h) with ⟨hne, hx⟩
  rw [hx]
  exact List.getLast_mem hne

/-- On a list with no adjacent dots, `stripLastDotSeg` never ends in a dot
(the character before the removed last dot cannot itself be a dot). -/
theorem lastIsDot_stripLastDotSeg :
    ∀ l : List Char, noAdjDots l = true → lastIsDot (stripLastDotSeg l) = false
  | [], _ => rfl
  | a :: rest, h => by
    by_cases hd : '.' ∈ rest
    · rw [show stripLastDotSeg (a :: rest) = a :: stripLastDotSeg rest by
        simp [stripLastDotSeg, hd]]
      cases hs : stripLastDotSeg rest with
      | nil =>
        rcases stripLastDotSeg_eq_nil rest hs with h1 | ⟨t, ht, hnd⟩
        · rw [h1] at hd
          simp at hd
        · rw [ht] at h
          rw [noAdjDots_cons_cons, Bool.and_eq_true] at h
          have ha : (a == '.') = false := by
            have := h.1
            revert this
            cases hcc : a == '.' <;> simp
          simp [lastIsDot, ha]
      | cons x xs =>
        have ih := lastIsDot_stripLastDotSeg rest (noAdjDots_tail a rest h)
        rw [hs] at ih
        simpa [lastIsDot, List.getLast?_cons_cons] using ih
    · by_cases ha : a = '.'
      · rw [show stripLastDotSeg (a :: rest) = [] by
          simp [stripLastDotSeg, hd, ha]]
        rfl
      · rw [show stripLastDotSeg (a :: rest) = a :: rest by
          simp [stripLastDotSeg, hd, ha]]
        cases hgl : (a :: rest).getLast? with
        | none => simp [lastIsDot, hgl]
        | some x =>
          have hx : x ∈ a :: rest := mem_of_getLastq hgl
          have hxd : x ≠ '.' := by
            rcases List.mem_cons.mp hx with h1 | h2
            · rw [h1]; exact ha
            · intro he; rw [he] at h2; exact hd h2
          simp [lastIsDot, hgl, hxd]

/-- Appending `.ttf` to a dot-balanced list that does not end in a dot
keeps the no-adjacent-dots invariant. -/
theorem noAdjDots_append_ttf :
    ∀ l : List Char, noAdjDots l = true → lastIsDot l = false →
      noAdjDots (l ++ ['.', 't', 't', 'f']) = true
  | [], _, _ => by decide
  | [a], _, hl => by
    have ha : (a == '.') = false := by simpa [lastIsDot] using hl
    simp [noAdjDots, ha]
  | a :: b :: rest, h, hl => by
    rw [noAdjDots_cons_cons, Bool.and_eq_true] at h
    have hl2 : lastIsDot (b :: rest) = false := by
      simpa [lastIsDot, List.getLast?_cons_cons] using hl
    have ih := noAdjDots_append_ttf (b :: rest) h.2 hl2
    rw [show (a :: b :: rest) ++ ['.', 't', 't', 'f']
          = a :: b :: (rest ++ ['.', 't', 't', 'f']) from rfl]
    rw [noAdjDots_cons_cons, Bool.and_eq_true]
    exact ⟨h.1, by simpa using ih⟩

/-- Appending `.ttf` establishes the `endsWithTtf` post-condition. -/
theorem endsWithTtf_append (a : List Char) :
    endsWithTtf (a ++ ['.', 't', 't', 'f']) = true := by
  unfold endsWithTtf lowerL
  rw [List.map_append, List.reverse_append]
  rw [show (['.', 't', 't', 'f'].map Char.toLower) = ['.', 't', 't', 'f'] by decide]
  rw [show (['.', 't', 't', 'f'] : List Char).reverse = ['f', 't', 't', '.'] by decide]
  rw [show (4 : Nat) = (['f', 't', 't', '.'] : List Char).length from rfl,
    List.take_left]
  decide

/-- Every character of a `sanitizeL` output is in the allowed class. -/
theorem allowedChar_of_mem_sanitizeL (l : List Char) (c : Char)
    (h : c ∈ sanitizeL l) : allowedChar c = true := by
  unfold sanitizeL at h
  cases he : endsWithTtf (collapseDots (l.filter allowedChar)) with
  | true =>
    simp only [he, if_true] at h
    exact (List.mem_filter.mp (mem_collapseDots _ c h)).2
  | false =>
    simp only [he, Bool.false_eq_true, if_false] at h
    rcases List.mem_append.mp h with h1 | h2
    · exact (List.mem_filter.mp
        (mem_collapseDots _ c (mem_stripLastDotSeg _ c h1))).2
    · fin_cases h2 <;> decide

/-- A `sanitizeL` output passes the allowed-character filter unchanged. -/
theorem filter_sanitizeL (l : List Char) :
    (sanitizeL l).filter allowedChar = sanitizeL l :=
  List.filter_eq_self.mpr (fun c hc => allowedChar_of_mem_sanitizeL l c hc)

/-- A `sanitizeL` output has no adjacent dots. -/
theorem noAdjDots_sanitizeL (l : List Char) : noAdjDots (sanitizeL l) = true := by
  unfold sanitizeL
  cases he : endsWithTtf (collapseDots (l.filter allowedChar)) with
  | true =>
    simp only [he, if_true]
    exact noAdjDots_collapseDots _
  | false =>
    simp only [he, Bool.false_eq_true, if_false]
    exact noAdjDots_append_ttf _
      (noAdjDots_stripLastDotSeg _ (noAdjDots_collapseDots _))
      (lastIsDot_stripLastDotSeg _ (noAdjDots_collapseDots _))

/-- A `sanitizeL` output ends in `.ttf` (case-insensitively). -/
theorem endsWithTtf_sanitizeL (l : List Char) : endsWithTtf (sanitizeL l) = true := by
  unfold sanitizeL
  cases he : endsWithTtf (collapseDots (l.filter allowedChar)) with
  | true => simp [he]
  | false =>
    simp only [he, Bool.false_eq_true, if_false]
    exact endsWithTtf_append _

/-- `sanitizeL` fixes any list satisfying its three post-conditions. -/
theorem sanitizeL_fixed (m : List Char) (h1 : m.filter allowedChar = m)
    (h2 : collapseDots m = m) (h3 : endsWithTtf m = true) : sanitizeL m = m := by
  unfold sanitizeL
  rw [h1, h2]
  simp [h3]

/-- `sanitizeL` is idempotent. -/
theorem sanitizeL_idem (l : List Char) : sanitizeL (sanitizeL l) = sanitizeL l :=
  sanitizeL_fixed (sanitizeL l) (filter_sanitizeL l)
    (collapseDots_of_noAdjDots (sanitizeL l) (noAdjDots_sanitizeL l))
    (endsWithTtf_sanitizeL l)

/-- Claim C8: `FontValidator.sanitizeFilename` is a pure deterministic
function and idempotent — sanitizing an already-sanitized filename returns
it unchanged, for every input string. -/
theorem C8_sanitize_idempotent (x : String) :
    sanitizeFilename (sanitizeFilename x) = sanitizeFilename x :=
  congrArg String.mk (sanitizeL_idem x.data)

end FontGroupSystem
